import Mathlib

/-!
Verification of the mailpit Go client library: a shallow embedding of its
request engine (`makeRequest`, `parseResponse` in client.go), client
construction (`NewClient`), flexible JSON decoding
(`AttachmentList.UnmarshalJSON`), query-parameter encoding
(`ListOptions.ToURLValues` / `SearchOptions.ToURLValues`) and the thin
per-operation wrappers, together with theorems settling the specified
properties of those components.
-/

namespace Mailpit

/-- An HTTP response as the retry loop observes it: the numeric status code
and the raw body the client would read from `resp.Body`. -/
structure HTTPResponse where
  statusCode : Nat
  body : String
  deriving DecidableEq, Repr

/-- The outcome of one `c.config.HTTPClient.Do(req)` invocation: a
transport-level failure (connection refused, DNS, TLS, ...) carrying its
message, or an HTTP response. -/
inductive DoResult where
  | failure (msg : String)
  | success (resp : HTTPResponse)
  deriving DecidableEq, Repr

/-- Whether a `Do` outcome is a transport-level (network) failure. -/
def DoResult.isNetworkFailure : DoResult → Bool
  | .failure _ => true
  | .success _ => false

/-- Whether a `Do` outcome makes the retry loop of `makeRequest` proceed to
the next attempt: a transport failure, or an HTTP status that is neither a
success (in [200,300)) nor a non-retryable client error (in [400,500) and
not 429). -/
def DoResult.keepsRetrying : DoResult → Bool
  | .failure _ => true
  | .success r =>
      (decide (r.statusCode < 200) || decide (300 ≤ r.statusCode)) &&
      (decide (r.statusCode < 400) || decide (500 ≤ r.statusCode) ||
        decide (r.statusCode = 429))

/-- The error taxonomy of errors.go (`ErrorType` plus the payload fields of
`Error` that each class uses), extended with `ctxCanceled` standing for the
Go context error `ctx.Err()` — which is not a mailpit `*Error` value at
all. -/
inductive ClientError where
  | config (msg : String)
  | validation (msg : String)
  | request (msg : String)
  | network (cause : String)
  | api (statusCode : Nat) (responseBody : String)
  | response (cause : String)
  | ctxCanceled
  deriving DecidableEq, Repr

/-- The observable result of `makeRequest`: the returned `*http.Response`
(`none` models a nil pointer), the returned error (`none` models nil), and
the number of times the transport was invoked. -/
structure MRResult where
  resp : Option HTTPResponse
  err : Option ClientError
  calls : Nat
  deriving DecidableEq, Repr

/-- The retry loop body of `makeRequest` (client.go lines 167-228).
`transport n` is what `HTTPClient.Do` returns on the transport's (n+1)-st
invocation, indexed by the Go loop counter `attempt`; `cancelAt n = true`
means the caller's context fires during the `RetryDelay` wait that precedes
attempt `n`; `fuel` is the number of loop iterations still permitted by the
condition `attempt <= c.config.MaxRetries`; `lastErr` is the running
`lastErr` variable.  Request construction (`http.NewRequestWithContext`)
cannot fail for the fixed method/URL strings the client passes, so that
branch is not modelled. -/
def mrLoop (transport : Nat → DoResult) (cancelAt : Nat → Bool) :
    Nat → Nat → Option ClientError → MRResult
  | _, 0, lastErr => ⟨none, lastErr, 0⟩
  | attempt, fuel + 1, lastErr =>
    if 0 < attempt ∧ cancelAt attempt then
      ⟨none, some .ctxCanceled, 0⟩
    else
      match transport attempt with
      | .failure msg =>
        let r := mrLoop transport cancelAt (attempt + 1) fuel
          (some (.network ("request failed: " ++ msg)))
        ⟨r.resp, r.err, r.calls + 1⟩
      | .success resp =>
        if 200 ≤ resp.statusCode ∧ resp.statusCode < 300 then
          ⟨some resp, none, 1⟩
        else if 400 ≤ resp.statusCode ∧ resp.statusCode < 500 ∧
            resp.statusCode ≠ 429 then
          ⟨none, some (.api resp.statusCode resp.body), 1⟩
        else
          let r := mrLoop transport cancelAt (attempt + 1) fuel
            (some (.api resp.statusCode resp.body))
          ⟨r.resp, r.err, r.calls + 1⟩

/-- Number of iterations the Go loop `for attempt := 0; attempt <=
c.config.MaxRetries; attempt++` performs when never exited early.
`MaxRetries` is a Go `int` and may be negative, in which case the loop body
never runs. -/
def attemptBudget (maxRetries : Int) : Nat :=
  if maxRetries < 0 then 0 else maxRetries.toNat + 1

/-- `makeRequest` (client.go lines 163-231), abstracted over the transport
behaviour and the cancellation schedule. -/
def makeRequest (maxRetries : Int) (transport : Nat → DoResult)
    (cancelAt : Nat → Bool) : MRResult :=
  mrLoop transport cancelAt 0 (attemptBudget maxRetries) none

/-- A fake transport that fails with a network error on its first two
invocations and then returns HTTP 200. -/
def twoFailThenOk : Nat → DoResult := fun n =>
  if n < 2 then .failure "connection refused" else .success ⟨200, "ok"⟩

/-- A fake transport that always returns HTTP 404. -/
def always404 : Nat → DoResult := fun _ => .success ⟨404, "not found"⟩

/-- A fake transport that returns HTTP 429 twice and then HTTP 200. -/
def twice429ThenOk : Nat → DoResult := fun n =>
  if n < 2 then .success ⟨429, "slow down"⟩ else .success ⟨200, "done"⟩

/-- A cancellation schedule that never fires. -/
def neverCancel : Nat → Bool := fun _ => false

/-- A URL as far as the client inspects it: the scheme and everything after
the scheme separator (verbatim; the client never decomposes it further). -/
structure GoURL where
  scheme : String
  rest : String
  deriving DecidableEq, Repr

/-- Whether a URL is absolute, i.e. has a scheme (net/url `URL.IsAbs`). -/
def GoURL.isAbs (u : GoURL) : Bool := u.scheme != ""

/-- ASCII control characters, rejected anywhere in a URL by net/url. -/
def isCTL (c : Char) : Bool := c.toNat < 0x20 || c.toNat == 0x7f

/-- The scheme scanner of net/url (`getScheme`): `none` is the error
"missing protocol scheme" (a colon before any scheme character), `some none`
means no scheme is present (the whole input is path material), and
`some (some (sch, rest))` is a scheme followed by the remainder after the
colon.  `acc` accumulates the scheme characters seen so far. -/
def getSchemeAux : List Char → List Char → Option (Option (String × List Char))
  | _, [] => some none
  | acc, c :: cs =>
    if c.isAlpha then getSchemeAux (acc ++ [c]) cs
    else if c.isDigit || c = '+' || c = '-' || c = '.' then
      if acc.isEmpty then some none else getSchemeAux (acc ++ [c]) cs
    else if c = ':' then
      if acc.isEmpty then none else some (some (⟨acc⟩, cs))
    else some none

/-- `url.Parse` restricted to what `NewClient` observes: it fails on control
characters, on a colon with no scheme before it, and on a colon inside the
first path segment of a scheme-less URL; any other input yields a URL whose
scheme may well be empty (a relative URL).  Percent-escape validation and
authority parsing, which cannot fail for the inputs considered here, are not
modelled. -/
def urlParse (s : String) : Except String GoURL :=
  if s.data.any isCTL then .error "invalid control character in URL"
  else
    match getSchemeAux [] s.data with
    | none => .error "missing protocol scheme"
    | some none =>
      if (s.data.takeWhile (fun c => c != '/')).any (fun c => c == ':') then
        .error "first path segment in URL cannot contain colon"
      else .ok ⟨"", s⟩
    | some (some (sch, rest)) => .ok ⟨sch, ⟨rest⟩⟩

/-- `URL.String()` for the parsed subset: scheme and remainder re-joined. -/
def GoURL.render (u : GoURL) : String :=
  if u.scheme = "" then u.rest else u.scheme ++ ":" ++ u.rest

/-- The configuration fields of `Config` that `NewClient` validates or uses
to build the API URL. -/
structure Config where
  baseURL : String
  apiPath : String
  deriving DecidableEq, Repr

/-- The constructed client state: the parsed base URL and the concatenated
API URL. -/
structure ClientValue where
  baseURL : GoURL
  apiURL : String
  deriving DecidableEq, Repr

/-- `NewClient` (client.go lines 104-148): reject an empty `BaseURL`,
reject a `BaseURL` that `url.Parse` cannot parse, default the API path, and
build the client.  No absoluteness check is performed on the parsed URL. -/
def NewClient (cfg : Config) : Except ClientError ClientValue :=
  if cfg.baseURL = "" then .error (.config "BaseURL is required")
  else
    match urlParse cfg.baseURL with
    | .error e => .error (.config ("invalid BaseURL: " ++ e))
    | .ok u =>
      let apiPath := if cfg.apiPath = "" then "/api/v1" else cfg.apiPath
      .ok ⟨u, u.render ++ apiPath⟩

/-- JSON documents, as the value space `encoding/json` decodes from.
Numbers are modelled as integers (the only numeric payloads the claims
touch). -/
inductive Json where
  | null
  | bool (b : Bool)
  | num (n : Int)
  | str (s : String)
  | arr (elems : List Json)
  | obj (fields : List (String × Json))

/-- An email attachment (the `Attachment` struct). -/
structure Attachment where
  partID : String
  fileName : String
  contentType : String
  size : Int
  deriving DecidableEq, Repr

/-- Field lookup during Go struct decoding: the last occurrence of a key
wins, since `encoding/json` decodes object members in order, later values
overwriting earlier ones. -/
def lookupField (fields : List (String × Json)) (key : String) : Option Json :=
  (fields.reverse.find? (fun p => p.1 == key)).map (fun p => p.2)

/-- Decoding a string-typed struct field: an absent or null member leaves
the zero value `""`; a string member is taken verbatim; any other shape is
a type error. -/
def decodeStrField (fields : List (String × Json)) (key : String) :
    Option String :=
  match lookupField fields key with
  | none => some ""
  | some .null => some ""
  | some (.str s) => some s
  | some _ => none

/-- Decoding an int-typed struct field: absent or null leaves the zero
value `0`; a number is taken verbatim; any other shape is a type error. -/
def decodeIntField (fields : List (String × Json)) (key : String) :
    Option Int :=
  match lookupField fields key with
  | none => some (0 : Int)
  | some .null => some (0 : Int)
  | some (.num n) => some n
  | some _ => none

/-- `json.Unmarshal` of one JSON value into an `Attachment` struct: null
leaves the zero value, an object maps its four known fields (unknown keys
are ignored), anything else is a type error. -/
def decodeAttachment : Json → Option Attachment
  | .null => some ⟨"", "", "", 0⟩
  | .obj fields => do
    let p ← decodeStrField fields "PartID"
    let f ← decodeStrField fields "FileName"
    let c ← decodeStrField fields "ContentType"
    let s ← decodeIntField fields "Size"
    return ⟨p, f, c, s⟩
  | _ => none

/-- Sequential element decoding of a JSON array into attachments; any
element that fails to decode fails the whole array. -/
def decodeAttachmentElems : List Json → Option (List Attachment)
  | [] => some []
  | j :: js => do
    let a ← decodeAttachment j
    let rest ← decodeAttachmentElems js
    return a :: rest

/-- `json.Unmarshal` of one JSON value into `[]Attachment`: null leaves the
slice nil (inner `none`), an array decodes every element, anything else is
a type error (outer `none`). -/
def decodeAttachmentArray : Json → Option (Option (List Attachment))
  | .null => some none
  | .arr es => (decodeAttachmentElems es).map some
  | _ => none

/-- Whether `json.Unmarshal` of one JSON value into an `int` succeeds:
numbers decode, null leaves the value unchanged, everything else is a type
error. -/
def intDecodeOk : Json → Bool
  | .num _ => true
  | .null => true
  | _ => false

/-- The body of `AttachmentList.UnmarshalJSON`, run on a syntactically
valid document: try the array decode, then the number decode normalised to
an empty list, and fall back to an empty list when both fail.  The returned
value is the new `*al` (`none` models a nil slice); the Go function returns
a nil error on every path. -/
def attachmentListUnmarshalJSON (j : Json) : Option (List Attachment) :=
  match decodeAttachmentArray j with
  | some r => r
  | none =>
    if intDecodeOk j then some []
    else some []

/-- `json.Unmarshal(data, &al)` for an `AttachmentList`: the decoder first
validates the syntax of `data` (`checkValid`), failing with a syntax error
before the custom `UnmarshalJSON` ever runs; `none` models a syntactically
invalid document, `some j` a valid one with value `j`. -/
def unmarshalAttachmentList : Option Json → Except String (Option (List Attachment))
  | none => .error "invalid character in JSON input"
  | some j => .ok (attachmentListUnmarshalJSON j)

/-- The JSON object `encoding/json` would produce for an `Attachment`,
used to state that well-formed attachment objects decode verbatim. -/
def attachmentToJson (a : Attachment) : Json :=
  .obj [("PartID", .str a.partID), ("FileName", .str a.fileName),
    ("ContentType", .str a.contentType), ("Size", .num a.size)]

/-- Characters `url.QueryEscape` leaves unescaped: ASCII alphanumerics and
the four unreserved marks. -/
def isUnreservedChar (c : Char) : Bool :=
  c.isAlphanum || c = '-' || c = '_' || c = '.' || c = '~'

/-- Upper-case hexadecimal digits, as `url.QueryEscape` emits them. -/
def hexUpper (n : Nat) : Char :=
  ['0', '1', '2', '3', '4', '5', '6', '7', '8', '9',
    'A', 'B', 'C', 'D', 'E', 'F'].getD n '0'

/-- `url.QueryEscape` on one character: unreserved characters pass through,
a space becomes `+`, anything else is percent-encoded.  (Go escapes byte by
byte; characters above ASCII, which the claims exclude, would escape to
several percent triples.) -/
def escapeChar (c : Char) : List Char :=
  if isUnreservedChar c then [c]
  else if c = ' ' then ['+']
  else ['%', hexUpper (c.toNat / 16 % 16), hexUpper (c.toNat % 16)]

/-- `url.QueryEscape` over a character list. -/
def escapeChars (l : List Char) : List Char := (l.map escapeChar).flatten

/-- `url.QueryEscape`. -/
def queryEscape (s : String) : String := ⟨escapeChars s.data⟩

/-- The space-to-plus substitution, the only change `QueryEscape` makes to
a string whose characters are all unreserved or spaces. -/
def plusify (c : Char) : Char := if c = ' ' then '+' else c

/-- Characters needing no escaping beyond the standard space-to-plus
substitution: the unreserved characters plus the space. -/
def safeChar (c : Char) : Bool := isUnreservedChar c || c = ' '

/-- Lexicographic character-list comparison, the order `Values.Encode` sorts
keys by. -/
def strLtChars : List Char → List Char → Bool
  | [], [] => false
  | [], _ :: _ => true
  | _ :: _, [] => false
  | a :: as, b :: bs => if a = b then strLtChars as bs else decide (a < b)

/-- Non-strict key order for the sort in `Values.Encode`. -/
def keyLe (a b : String) : Bool := !(strLtChars b.data a.data)

/-- Insertion step of the key sort. -/
def insertByKey (p : String × String) :
    List (String × String) → List (String × String)
  | [] => [p]
  | q :: qs => if keyLe p.1 q.1 then p :: q :: qs else q :: insertByKey p qs

/-- `Values.Encode` sorts the keys alphabetically before serialising;
modelled as an insertion sort over the key/value pairs. -/
def sortByKey (l : List (String × String)) : List (String × String) :=
  l.foldr insertByKey []

/-- One `key=value` component of an encoded query, both sides escaped. -/
def encodePairChars (p : String × String) : List Char :=
  escapeChars p.1.data ++ '=' :: escapeChars p.2.data

/-- `&`-joined components of an encoded query. -/
def encodeChars : List (String × String) → List Char
  | [] => []
  | [p] => encodePairChars p
  | p :: q :: rest => encodePairChars p ++ '&' :: encodeChars (q :: rest)

/-- `url.Values.Encode`: sort by key, escape, join with `&`. -/
def urlValuesEncode (vs : List (String × String)) : String :=
  ⟨encodeChars (sortByKey vs)⟩

/-- `ListOptions` (pagination/filter parameters for listing messages). -/
structure ListOptions where
  query : String
  tag : String
  sort : String
  start : Int
  limit : Int
  deriving DecidableEq, Repr

/-- `SearchOptions` (pagination/filter parameters for searching). -/
structure SearchOptions where
  tag : String
  sort : String
  start : Int
  limit : Int
  deriving DecidableEq, Repr

/-- `ListOptions.ToURLValues`: each numeric field is emitted only when
strictly positive, each string field only when non-empty; the resulting
pairs feed `url.Values` (whose encoding sorts keys, so the `Set` order is
immaterial). -/
def ListOptions.toURLValues (o : ListOptions) : List (String × String) :=
  (if 0 < o.start then [("start", toString o.start)] else []) ++
  (if 0 < o.limit then [("limit", toString o.limit)] else []) ++
  (if o.query ≠ "" then [("query", o.query)] else []) ++
  (if o.tag ≠ "" then [("tag", o.tag)] else []) ++
  (if o.sort ≠ "" then [("sort", o.sort)] else [])

/-- `SearchOptions.ToURLValues`: as for `ListOptions`, without a query
field. -/
def SearchOptions.toURLValues (o : SearchOptions) : List (String × String) :=
  (if 0 < o.start then [("start", toString o.start)] else []) ++
  (if 0 < o.limit then [("limit", toString o.limit)] else []) ++
  (if o.tag ≠ "" then [("tag", o.tag)] else []) ++
  (if o.sort ≠ "" then [("sort", o.sort)] else [])

/-- Value of one hexadecimal digit, as `url.QueryUnescape` reads them. -/
def hexVal (c : Char) : Option Nat :=
  if '0' ≤ c ∧ c ≤ '9' then some (c.toNat - '0'.toNat)
  else if 'a' ≤ c ∧ c ≤ 'f' then some (c.toNat - 'a'.toNat + 10)
  else if 'A' ≤ c ∧ c ≤ 'F' then some (c.toNat - 'A'.toNat + 10)
  else none

/-- `url.QueryUnescape` over characters: percent triples decode, `+`
becomes a space, anything else passes through; a truncated or malformed
percent escape is an error. -/
def unescapeChars : List Char → Option (List Char)
  | [] => some []
  | c :: cs =>
    if c = '%' then
      match cs with
      | a :: b :: rest => do
        let ha ← hexVal a
        let hb ← hexVal b
        let r ← unescapeChars rest
        return Char.ofNat (16 * ha + hb) :: r
      | _ => none
    else if c = '+' then (unescapeChars cs).map (fun r => ' ' :: r)
    else (unescapeChars cs).map (fun r => c :: r)

/-- Split a character list at every occurrence of `sep` (the `&` split of
`url.ParseQuery`); always returns at least one (possibly empty) chunk. -/
def splitOnChar (sep : Char) : List Char → List (List Char)
  | [] => [[]]
  | c :: cs =>
    match splitOnChar sep cs with
    | [] => if c = sep then [[], []] else [[c]]
    | h :: t => if c = sep then [] :: h :: t else (c :: h) :: t

/-- One `key=value` component parsed back: cut at the first `=` (a missing
`=` leaves an empty value) and unescape both sides. -/
def parsePair (cs : List Char) : Option (String × String) :=
  let k := cs.takeWhile (fun c => c != '=')
  match cs.dropWhile (fun c => c != '=') with
  | '=' :: v => do
    let kk ← unescapeChars k
    let vv ← unescapeChars v
    return (⟨kk⟩, ⟨vv⟩)
  | _ => do
    let kk ← unescapeChars k
    return (⟨kk⟩, "")

/-- Parse every segment of a split query in order. -/
def parsePairs : List (List Char) → Option (List (String × String))
  | [] => some []
  | seg :: rest => do
    let p ← parsePair seg
    let ps ← parsePairs rest
    return p :: ps

/-- `url.ParseQuery`: split on `&`, skip empty segments, parse each pair.
(Go records the first unescape error while continuing with the remaining
segments; the round-trip inputs considered here produce none, so an error
simply aborts.) -/
def parseQuery (s : String) : Option (List (String × String)) :=
  parsePairs ((splitOnChar '&' s.data).filter (fun seg => !seg.isEmpty))

/-- `parseResponse` (client.go lines 234-263), abstracted over the JSON
decoder `dec` for the concrete target type.  `hasTarget = false` models a
nil `target`; `bodyRead` is the outcome of `io.ReadAll(resp.Body)`.  The
result `.ok none` means the decode target was left completely untouched;
`.ok (some a)` means `a` was written into it. -/
def parseResponse {α : Type} (dec : String → Except String α)
    (hasTarget : Bool) (bodyRead : Except String String) :
    Except ClientError (Option α) :=
  if hasTarget = false then .ok none
  else
    match bodyRead with
    | .error e => .error (.response ("failed to read response body: " ++ e))
    | .ok body =>
      if body.length = 0 then .ok none
      else
        match dec body with
        | .ok a => .ok (some a)
        | .error e =>
          .error (.response ("failed to parse JSON response: " ++ e))

/-- A client as the per-operation wrappers see it: the retry configuration
together with the transport and cancellation behaviour of one call. -/
structure GoClient where
  maxRetries : Int
  transport : Nat → DoResult
  cancelAt : Nat → Bool

/-- The shared request step every operation delegates to. -/
def GoClient.request (c : GoClient) : MRResult :=
  makeRequest c.maxRetries c.transport c.cancelAt

/-- `GetMessage`: empty-id validation, then the request engine.  The
JSON decode of the returned body into `Message` happens after the engine
and does not affect the validation or call-count behaviour stated here. -/
def GetMessage (c : GoClient) (id : String) :
    Option HTTPResponse × Option ClientError × Nat :=
  if id = "" then (none, some (.validation "message ID cannot be empty"), 0)
  else
    let r := c.request
    match r.err with
    | some e => (none, some e, r.calls)
    | none => (r.resp, none, r.calls)

/-- `DeleteMessage`: empty-id validation, then the request engine. -/
def DeleteMessage (c : GoClient) (id : String) : Option ClientError × Nat :=
  if id = "" then (some (.validation "message ID cannot be empty"), 0)
  else
    let r := c.request
    (r.err, r.calls)

/-- `SearchMessages`: empty-query validation, then the request engine. -/
def SearchMessages (c : GoClient) (query : String) :
    Option HTTPResponse × Option ClientError × Nat :=
  if query = "" then
    (none, some (.validation "search query cannot be empty"), 0)
  else
    let r := c.request
    match r.err with
    | some e => (none, some e, r.calls)
    | none => (r.resp, none, r.calls)

/-- `DeleteTag`: empty-tag validation, then the request engine. -/
def DeleteTag (c : GoClient) (tag : String) : Option ClientError × Nat :=
  if tag = "" then (some (.validation "tag cannot be empty"), 0)
  else
    let r := c.request
    (r.err, r.calls)

/-- `GetMessagePart`: message-id then part-id validation, in source order,
then the request engine. -/
def GetMessagePart (c : GoClient) (messageID partID : String) :
    Option HTTPResponse × Option ClientError × Nat :=
  if messageID = "" then
    (none, some (.validation "message ID cannot be empty"), 0)
  else if partID = "" then
    (none, some (.validation "part ID cannot be empty"), 0)
  else
    let r := c.request
    match r.err with
    | some e => (none, some e, r.calls)
    | none => (r.resp, none, r.calls)

/-- A request-counting fake client used to witness the validation claims. -/
def countingClient : GoClient := ⟨3, always404, neverCancel⟩

/-- Whether an `Except` value is a success. -/
def exceptIsOk {ε α : Type} : Except ε α → Bool
  | .ok _ => true
  | .error _ => false

/-! ## Engine lemmas -/

/-- If the transport fails with a network error at attempts `attempt ..
attempt+k-1` and returns a 2xx response at attempt `attempt+k`, the loop
(never cancelled) returns that response with no error after exactly `k+1`
transport invocations. -/
theorem mrLoop_netfail_then_ok (transport : Nat → DoResult) :
    ∀ (k attempt fuel : Nat) (lastErr : Option ClientError)
      (resp : HTTPResponse),
      k < fuel →
      (∀ i, i < k → (transport (attempt + i)).isNetworkFailure = true) →
      transport (attempt + k) = .success resp →
      200 ≤ resp.statusCode → resp.statusCode < 300 →
      mrLoop transport neverCancel attempt fuel lastErr =
        ⟨some resp, none, k + 1⟩ := by
  intro k
  induction k with
  | zero =>
    intro attempt fuel lastErr resp hfuel _ hsucc h2 h3
    obtain ⟨f, rfl⟩ : ∃ f, fuel = f + 1 := ⟨fuel - 1, by omega⟩
    rw [Nat.add_zero] at hsucc
    simp [mrLoop, neverCancel, hsucc, h2, h3]
  | succ k ih =>
    intro attempt fuel lastErr resp hfuel hfail hsucc h2 h3
    obtain ⟨f, rfl⟩ : ∃ f, fuel = f + 1 := ⟨fuel - 1, by omega⟩
    have h0 : (transport attempt).isNetworkFailure = true := by
      have := hfail 0 (Nat.succ_pos k)
      simpa using this
    obtain ⟨msg, hmsg⟩ : ∃ m, transport attempt = .failure m := by
      cases h : transport attempt with
      | failure m => exact ⟨m, rfl⟩
      | success r => rw [h] at h0; simp [DoResult.isNetworkFailure] at h0
    have ihr := ih (attempt + 1) f
      (some (.network ("request failed: " ++ msg))) resp (by omega)
      (fun i hik => by
        have heq : attempt + 1 + i = attempt + (i + 1) := by omega
        rw [heq]
        exact hfail (i + 1) (by omega))
      (by
        have heq : attempt + 1 + k = attempt + (k + 1) := by omega
        rw [heq]
        exact hsucc) h2 h3
    simp [mrLoop, neverCancel, hmsg, ihr]

/-- Exactly one of the response and the error of the retry loop is present,
as long as the loop is entered at least once or an error was already
recorded. -/
theorem mrLoop_exclusive (transport : Nat → DoResult) (cancelAt : Nat → Bool) :
    ∀ (fuel attempt : Nat) (lastErr : Option ClientError),
      0 < fuel ∨ lastErr.isSome = true →
      (mrLoop transport cancelAt attempt fuel lastErr).resp.isSome
        = !(mrLoop transport cancelAt attempt fuel lastErr).err.isSome := by
  intro fuel
  induction fuel with
  | zero =>
    intro attempt lastErr h
    rcases h with h | h
    · omega
    · cases lastErr with
      | none => simp at h
      | some e => simp [mrLoop]
  | succ f ih =>
    intro attempt lastErr _
    by_cases hc : 0 < attempt ∧ cancelAt attempt = true
    · simp [mrLoop, hc]
    · rw [mrLoop, if_neg hc]
      cases ht : transport attempt with
      | failure msg =>
        have := ih (attempt + 1)
          (some (.network ("request failed: " ++ msg))) (Or.inr rfl)
        simpa using this
      | success r =>
        by_cases h2 : 200 ≤ r.statusCode ∧ r.statusCode < 300
        · simp [h2]
        · by_cases h4 : 400 ≤ r.statusCode ∧ r.statusCode < 500 ∧
              r.statusCode ≠ 429
          · simp [h2, h4]
          · have := ih (attempt + 1)
              (some (.api r.statusCode r.body)) (Or.inr rfl)
            simp [h2, h4, this]

/-- If every attempt before `j` keeps the loop retrying and the context
fires during the wait preceding attempt `j`, the loop returns the context
error after exactly `j` transport invocations. -/
theorem mrLoop_cancel_during_wait (transport : Nat → DoResult) (j : Nat) :
    ∀ (d attempt fuel : Nat) (lastErr : Option ClientError),
      attempt + d = j → (0 < attempt ∨ 0 < d) → d < fuel →
      (∀ i, attempt ≤ i → i < j → (transport i).keepsRetrying = true) →
      mrLoop transport (fun n => n == j) attempt fuel lastErr =
        ⟨none, some .ctxCanceled, d⟩ := by
  intro d
  induction d with
  | zero =>
    intro attempt fuel lastErr haj hpos hfuel _
    obtain ⟨f, rfl⟩ : ∃ f, fuel = f + 1 := ⟨fuel - 1, by omega⟩
    have ha : 0 < attempt := by omega
    have haeq : attempt = j := by omega
    subst haeq
    simp [mrLoop, ha]
  | succ d ih =>
    intro attempt fuel lastErr haj hpos hfuel hcont
    obtain ⟨f, rfl⟩ : ∃ f, fuel = f + 1 := ⟨fuel - 1, by omega⟩
    have hne : attempt ≠ j := by omega
    have hguard : ¬ (0 < attempt ∧ (attempt == j) = true) := by
      simp [hne]
    have hkr : (transport attempt).keepsRetrying = true :=
      hcont attempt (Nat.le_refl _) (by omega)
    cases htr : transport attempt with
    | failure msg =>
      have ihr := ih (attempt + 1) f
        (some (.network ("request failed: " ++ msg)))
        (by omega) (Or.inl (by omega)) (by omega)
        (fun i h1 h2 => hcont i (by omega) h2)
      rw [mrLoop, if_neg hguard, htr]
      simp [ihr]
    | success r =>
      rw [htr] at hkr
      simp only [DoResult.keepsRetrying, Bool.and_eq_true, Bool.or_eq_true,
        decide_eq_true_eq] at hkr
      obtain ⟨hA, hB⟩ := hkr
      have h2 : ¬ (200 ≤ r.statusCode ∧ r.statusCode < 300) := by
        intro hx
        rcases hA with h | h <;> omega
      have h4 : ¬ (400 ≤ r.statusCode ∧ r.statusCode < 500 ∧
          r.statusCode ≠ 429) := by
        intro hx
        rcases hB with (h | h) | h
        · omega
        · omega
        · exact hx.2.2 h
      have ihr := ih (attempt + 1) f (some (.api r.statusCode r.body))
        (by omega) (Or.inl (by omega)) (by omega)
        (fun i h1 h2 => hcont i (by omega) h2)
      rw [mrLoop, if_neg hguard, htr]
      simp [h2, h4, ihr]

/-- The loop budget of a non-negative `MaxRetries` is `MaxRetries + 1`. -/
theorem attemptBudget_natCast (n : Nat) : attemptBudget (n : Int) = n + 1 := by
  unfold attemptBudget
  split <;> omega

/-! ## Claim theorems -/

/-- C1: if the transport fails with a network-class error on each of the
first `k` attempts (`k ≤ MaxRetries`) and returns a status in [200, 300)
on attempt `k+1`, `makeRequest` returns that response with a nil error
after exactly `k+1` transport invocations (so no attempt follows the 2xx
response). -/
theorem makeRequest_net_failures_then_success (maxRetries k : Nat)
    (transport : Nat → DoResult) (resp : HTTPResponse)
    (hk : k ≤ maxRetries)
    (hfail : ∀ i, i < k → (transport i).isNetworkFailure = true)
    (hsucc : transport k = .success resp)
    (h2 : 200 ≤ resp.statusCode) (h3 : resp.statusCode < 300) :
    makeRequest (maxRetries : Int) transport neverCancel =
      ⟨some resp, none, k + 1⟩ := by
  rw [makeRequest, attemptBudget_natCast]
  exact mrLoop_netfail_then_ok transport k 0 (maxRetries + 1) none resp
    (by omega) (fun i hi => by simpa using hfail i hi) (by simpa using hsucc)
    h2 h3

/-- Witness for C1: with `MaxRetries = 3` and a transport failing exactly
twice then answering 200, the response comes back after exactly 3 calls. -/
theorem makeRequest_net_failures_then_success_witness :
    makeRequest ((3 : Nat) : Int) twoFailThenOk neverCancel =
      ⟨some ⟨200, "ok"⟩, none, 3⟩ :=
  makeRequest_net_failures_then_success 3 2 twoFailThenOk ⟨200, "ok"⟩
    (by decide) (by decide) (by decide) (by decide) (by decide)

/-- C2: a first-attempt response with status in [400, 500) other than 429
ends the loop at once with an API error carrying the status code and raw
body (one transport invocation, for any non-negative `MaxRetries`), while
a transport answering 429 twice then 200 succeeds after exactly 3
attempts. -/
theorem makeRequest_4xx_stops_429_retries (maxRetries : Int)
    (transport : Nat → DoResult) (cancelAt : Nat → Bool)
    (resp : HTTPResponse) (h0 : 0 ≤ maxRetries)
    (ht : transport 0 = .success resp)
    (h4 : 400 ≤ resp.statusCode) (h5 : resp.statusCode < 500)
    (h9 : resp.statusCode ≠ 429) :
    makeRequest maxRetries transport cancelAt =
      ⟨none, some (.api resp.statusCode resp.body), 1⟩ ∧
    makeRequest 3 twice429ThenOk neverCancel =
      ⟨some ⟨200, "done"⟩, none, 3⟩ := by
  constructor
  · obtain ⟨f, hf⟩ : ∃ f, attemptBudget maxRetries = f + 1 := by
      refine ⟨attemptBudget maxRetries - 1, ?_⟩
      unfold attemptBudget
      split <;> omega
    have h2 : ¬ (200 ≤ resp.statusCode ∧ resp.statusCode < 300) := by omega
    rw [makeRequest, hf, mrLoop]
    simp [ht, h2, h4, h5, h9]
  · decide

/-- Witness for C2: a transport that always answers 404, with
`MaxRetries = 3`, yields the API error after exactly one attempt. -/
theorem makeRequest_4xx_stops_429_retries_witness :
    makeRequest 3 always404 neverCancel =
      ⟨none, some (.api 404 "not found"), 1⟩ ∧
    makeRequest 3 twice429ThenOk neverCancel =
      ⟨some ⟨200, "done"⟩, none, 3⟩ :=
  makeRequest_4xx_stops_429_retries 3 always404 neverCancel ⟨404, "not found"⟩
    (by decide) (by decide) (by decide) (by decide) (by decide)

/-- C7: when the caller's context fires during the inter-retry wait before
attempt `j` (each earlier attempt having kept the loop retrying),
`makeRequest` returns the context's own error — which is not a
network-class error — and performs no further transport attempt. -/
theorem makeRequest_cancelled_in_wait (maxRetries : Int) (j : Nat)
    (transport : Nat → DoResult)
    (hj : 1 ≤ j) (hjm : (j : Int) ≤ maxRetries)
    (hcont : ∀ i, i < j → (transport i).keepsRetrying = true) :
    makeRequest maxRetries transport (fun n => n == j) =
      ⟨none, some .ctxCanceled, j⟩ ∧
    ∀ m, (ClientError.ctxCanceled ≠ ClientError.network m) := by
  refine ⟨?_, fun m h => by cases h⟩
  have hb : j < attemptBudget maxRetries := by
    unfold attemptBudget
    split <;> omega
  rw [makeRequest]
  exact mrLoop_cancel_during_wait transport j j 0 (attemptBudget maxRetries)
    none (by omega) (Or.inr (by omega)) hb
    (fun i _ h2 => hcont i h2)

/-- Witness for C7: first call fails, the context fires during the wait
before the second attempt; the call returns the context error after one
transport invocation. -/
theorem makeRequest_cancelled_in_wait_witness :
    makeRequest 3 twoFailThenOk (fun n => n == 1) =
      ⟨none, some .ctxCanceled, 1⟩ ∧
    ∀ m, (ClientError.ctxCanceled ≠ ClientError.network m) :=
  makeRequest_cancelled_in_wait 3 1 twoFailThenOk (by decide) (by decide)
    (by decide)

/-- C10: a negative `MaxRetries` makes `makeRequest` skip the loop entirely
and return a nil response together with a nil error after zero transport
invocations; for any non-negative `MaxRetries`, exactly one of the returned
response and error is non-nil. -/
theorem makeRequest_negative_retries_nil_nil (maxRetries : Int)
    (transport : Nat → DoResult) (cancelAt : Nat → Bool) :
    (maxRetries < 0 →
      makeRequest maxRetries transport cancelAt = ⟨none, none, 0⟩) ∧
    (0 ≤ maxRetries →
      (makeRequest maxRetries transport cancelAt).resp.isSome
        = !(makeRequest maxRetries transport cancelAt).err.isSome) := by
  constructor
  · intro h
    have hb : attemptBudget maxRetries = 0 := by
      unfold attemptBudget
      split <;> omega
    rw [makeRequest, hb]
    rfl
  · intro h
    have hb : 0 < attemptBudget maxRetries := by
      unfold attemptBudget
      split <;> omega
    exact mrLoop_exclusive transport cancelAt _ 0 none (Or.inl hb)

/-- Witness for C10: `MaxRetries = -1` yields nil response and nil error
with zero calls; `MaxRetries = 3` yields exactly one of the two. -/
theorem makeRequest_negative_retries_nil_nil_witness :
    makeRequest (-1) always404 neverCancel = ⟨none, none, 0⟩ ∧
    (makeRequest 3 always404 neverCancel).resp.isSome
      = !(makeRequest 3 always404 neverCancel).err.isSome :=
  ⟨(makeRequest_negative_retries_nil_nil (-1) always404 neverCancel).1
      (by decide),
   (makeRequest_negative_retries_nil_nil 3 always404 neverCancel).2
      (by decide)⟩

/-- A well-formed attachment object decodes back to the attachment whose
fields it carries, verbatim. -/
theorem decodeAttachment_toJson (a : Attachment) :
    decodeAttachment (attachmentToJson a) = some a := rfl

/-- Element-wise decoding of a list of well-formed attachment objects. -/
theorem decodeAttachmentElems_toJson (as : List Attachment) :
    decodeAttachmentElems (as.map attachmentToJson) = some as := by
  induction as with
  | nil => rfl
  | cons a as ih => simp [decodeAttachmentElems, decodeAttachment_toJson, ih]

/-- C3: decoding an `AttachmentList` succeeds on every syntactically valid
JSON document — an array of well-formed attachment objects maps verbatim,
a bare number gives an empty collection, `null` gives a nil collection, and
any other shape (boolean, string, object) gives an empty collection — while
a syntactically invalid document is the one case that fails with a parse
error. -/
theorem attachmentList_decode_total (as : List Attachment) (n : Int)
    (b : Bool) (s : String) (fs : List (String × Json)) (j : Json) :
    unmarshalAttachmentList (some (.arr (as.map attachmentToJson)))
      = .ok (some as) ∧
    unmarshalAttachmentList (some (.num n)) = .ok (some []) ∧
    unmarshalAttachmentList (some .null) = .ok none ∧
    unmarshalAttachmentList (some (.bool b)) = .ok (some []) ∧
    unmarshalAttachmentList (some (.str s)) = .ok (some []) ∧
    unmarshalAttachmentList (some (.obj fs)) = .ok (some []) ∧
    unmarshalAttachmentList (some j) = .ok (attachmentListUnmarshalJSON j) ∧
    exceptIsOk (unmarshalAttachmentList none) = false := by
  refine ⟨?_, rfl, rfl, rfl, rfl, rfl, rfl, rfl⟩
  simp [unmarshalAttachmentList, attachmentListUnmarshalJSON,
    decodeAttachmentArray, decodeAttachmentElems_toJson]

/-- C4: every operation requiring a string identifier, called with the
empty string, returns a validation-class error and performs zero transport
invocations — the request engine is never entered. -/
theorem empty_identifier_validation_no_calls (c : GoClient) (mid : String) :
    GetMessage c ""
      = (none, some (.validation "message ID cannot be empty"), 0) ∧
    DeleteMessage c ""
      = (some (.validation "message ID cannot be empty"), 0) ∧
    SearchMessages c ""
      = (none, some (.validation "search query cannot be empty"), 0) ∧
    DeleteTag c "" = (some (.validation "tag cannot be empty"), 0) ∧
    GetMessagePart c "" mid
      = (none, some (.validation "message ID cannot be empty"), 0) ∧
    (mid ≠ "" → GetMessagePart c mid ""
      = (none, some (.validation "part ID cannot be empty"), 0)) := by
  refine ⟨rfl, rfl, rfl, rfl, rfl, ?_⟩
  intro h
  simp [GetMessagePart, h]

/-- Witness for C4: a request-counting fake client never sees a call when
an identifier is empty. -/
theorem empty_identifier_validation_no_calls_witness :
    GetMessagePart countingClient "m1" ""
      = (none, some (.validation "part ID cannot be empty"), 0) ∧
    GetMessage countingClient ""
      = (none, some (.validation "message ID cannot be empty"), 0) :=
  ⟨(empty_identifier_validation_no_calls countingClient "m1").2.2.2.2.2
      (by decide),
   (empty_identifier_validation_no_calls countingClient "m1").1⟩

/-- C5 counterexample: the string "notaurl" does not parse as an absolute
URL — its scheme is empty — yet `NewClient` accepts it and constructs a
client, contradicting the claim that every base URL not parsing as a valid
absolute URL is rejected with a Configuration error. -/
theorem newClient_accepts_relative_url :
    urlParse "notaurl" = .ok ⟨"", "notaurl"⟩ ∧
    GoURL.isAbs ⟨"", "notaurl"⟩ = false ∧
    NewClient ⟨"notaurl", ""⟩ = .ok ⟨⟨"", "notaurl"⟩, "notaurl/api/v1"⟩ :=
  ⟨rfl, rfl, rfl⟩

/-- C5 amended: construction fails with a Configuration error exactly when
the base URL is empty or fails to parse under `url.Parse`; a string that
parses — absolute or not — is accepted. -/
theorem newClient_config_error_iff_unparseable (cfg : Config) :
    (cfg.baseURL = "" →
      NewClient cfg = .error (.config "BaseURL is required")) ∧
    (∀ e, cfg.baseURL ≠ "" → urlParse cfg.baseURL = .error e →
      NewClient cfg = .error (.config ("invalid BaseURL: " ++ e))) ∧
    (∀ u, cfg.baseURL ≠ "" → urlParse cfg.baseURL = .ok u →
      NewClient cfg = .ok ⟨u, u.render ++
        (if cfg.apiPath = "" then "/api/v1" else cfg.apiPath)⟩) := by
  refine ⟨?_, ?_, ?_⟩
  · intro h
    simp [NewClient, h]
  · intro e hne hp
    simp [NewClient, hne, hp]
  · intro u hne hp
    simp [NewClient, hne, hp]

/-- Witness for the amended C5: the empty URL and a colon-first URL are
rejected; an ordinary absolute URL is accepted. -/
theorem newClient_config_error_iff_unparseable_witness :
    NewClient ⟨"", ""⟩ = .error (.config "BaseURL is required") ∧
    NewClient ⟨"://x", ""⟩
      = .error (.config ("invalid BaseURL: " ++ "missing protocol scheme")) ∧
    NewClient ⟨"http://localhost:8025", ""⟩
      = .ok ⟨⟨"http", "//localhost:8025"⟩,
          GoURL.render ⟨"http", "//localhost:8025"⟩ ++ "/api/v1"⟩ :=
  ⟨(newClient_config_error_iff_unparseable ⟨"", ""⟩).1 rfl,
   (newClient_config_error_iff_unparseable ⟨"://x", ""⟩).2.1
      "missing protocol scheme" (by decide) rfl,
   (newClient_config_error_iff_unparseable ⟨"http://localhost:8025", ""⟩).2.2
      ⟨"http", "//localhost:8025"⟩ (by decide) rfl⟩

/-- C6: the serialized query values contain the key `start` (respectively
`limit`) exactly when the field is strictly positive, with its decimal
string as value, for both `ListOptions` and `SearchOptions`; when every
field is unset the encoded query string is empty. -/
theorem options_positive_fields_serialized (o : ListOptions)
    (p : SearchOptions) :
    (o.toURLValues.lookup "start"
      = if 0 < o.start then some (toString o.start) else none) ∧
    (o.toURLValues.lookup "limit"
      = if 0 < o.limit then some (toString o.limit) else none) ∧
    (p.toURLValues.lookup "start"
      = if 0 < p.start then some (toString p.start) else none) ∧
    (p.toURLValues.lookup "limit"
      = if 0 < p.limit then some (toString p.limit) else none) ∧
    (o.start ≤ 0 → o.limit ≤ 0 → o.query = "" → o.tag = "" → o.sort = "" →
      urlValuesEncode o.toURLValues = "") ∧
    (p.start ≤ 0 → p.limit ≤ 0 → p.tag = "" → p.sort = "" →
      urlValuesEncode p.toURLValues = "") := by
  refine ⟨?_, ?_, ?_, ?_, ?_, ?_⟩
  · unfold ListOptions.toURLValues
    split_ifs <;> rfl
  · unfold ListOptions.toURLValues
    split_ifs <;> rfl
  · unfold SearchOptions.toURLValues
    split_ifs <;> rfl
  · unfold SearchOptions.toURLValues
    split_ifs <;> rfl
  · intro h1 h2 h3 h4 h5
    have n1 : ¬ 0 < o.start := by omega
    have n2 : ¬ 0 < o.limit := by omega
    simp only [ListOptions.toURLValues, n1, n2, h3, h4, h5, if_neg,
      ite_eq_right_iff, List.append_nil, List.nil_append, ne_eq,
      not_true_eq_false, if_false]
    rfl
  · intro h1 h2 h3 h4
    have n1 : ¬ 0 < p.start := by omega
    have n2 : ¬ 0 < p.limit := by omega
    simp only [SearchOptions.toURLValues, n1, n2, h3, h4, if_neg,
      ite_eq_right_iff, List.append_nil, List.nil_append, ne_eq,
      not_true_eq_false, if_false]
    rfl

/-- Witness for C6: all-unset options encode to the empty query string. -/
theorem options_positive_fields_serialized_witness :
    urlValuesEncode (ListOptions.mk "" "" "" 0 0).toURLValues = "" ∧
    urlValuesEncode (SearchOptions.mk "" "" 0 0).toURLValues = "" :=
  ⟨(options_positive_fields_serialized (ListOptions.mk "" "" "" 0 0)
      (SearchOptions.mk "" "" 0 0)).2.2.2.2.1
      (by decide) (by decide) rfl rfl rfl,
   (options_positive_fields_serialized (ListOptions.mk "" "" "" 0 0)
      (SearchOptions.mk "" "" 0 0)).2.2.2.2.2
      (by decide) (by decide) rfl rfl⟩

/-- C8: an empty response body yields success with the decode target left
completely untouched; a non-empty body the decoder rejects yields a
response-class error embedding the underlying parse error. -/
theorem parseResponse_empty_untouched_bad_body_response_error {α : Type}
    (dec : String → Except String α) (body : String) (e : String) :
    parseResponse dec true (.ok "") = .ok none ∧
    (body ≠ "" → dec body = .error e →
      parseResponse dec true (.ok body)
        = .error (.response ("failed to parse JSON response: " ++ e))) := by
  constructor
  · rfl
  · intro hb hd
    have hl : ¬ (body.length = 0) := by
      intro h0
      apply hb
      cases body with
      | mk l =>
        cases l with
        | nil => rfl
        | cons c cs => simp [String.length] at h0
    simp [parseResponse, hl, hd]

/-! ## Query round-trip lemmas -/

/-- Unreserved characters are distinct from every query metacharacter. -/
theorem unreserved_not_meta {c : Char} (h : isUnreservedChar c = true) :
    c ≠ '&' ∧ c ≠ '=' ∧ c ≠ '%' ∧ c ≠ '+' ∧ c ≠ ' ' := by
  refine ⟨?_, ?_, ?_, ?_, ?_⟩ <;>
    · intro he
      subst he
      exact absurd h (by decide)

/-- A safe character escapes to its plusified form. -/
theorem escapeChar_safe {c : Char} (h : safeChar c = true) :
    escapeChar c = [plusify c] := by
  unfold safeChar at h
  rw [Bool.or_eq_true, decide_eq_true_eq] at h
  rcases h with h | h
  · have hs : ¬ (c = ' ') := (unreserved_not_meta h).2.2.2.2
    unfold escapeChar plusify
    rw [if_pos h, if_neg hs]
  · subst h
    rfl

/-- A plusified safe character is never the separator `&`. -/
theorem plusify_safe_ne_amp {c : Char} (h : safeChar c = true) :
    plusify c ≠ '&' := by
  unfold safeChar at h
  rw [Bool.or_eq_true, decide_eq_true_eq] at h
  unfold plusify
  rcases h with h | h
  · rw [if_neg (unreserved_not_meta h).2.2.2.2]
    exact (unreserved_not_meta h).1
  · rw [if_pos h]
    decide

/-- Escaping a list of safe characters is exactly the space-to-plus map. -/
theorem escapeChars_safe (l : List Char) (h : ∀ c ∈ l, safeChar c = true) :
    escapeChars l = l.map plusify := by
  induction l with
  | nil => rfl
  | cons c cs ih =>
    have hc := h c (by simp)
    have ihr := ih (fun x hx => h x (by simp [hx]))
    simp only [escapeChars, List.map_cons, List.flatten_cons] at ihr ⊢
    rw [escapeChar_safe hc, ihr]
    rfl

/-- Plusification is the identity on unreserved characters. -/
theorem map_plusify_unreserved (l : List Char)
    (h : ∀ c ∈ l, isUnreservedChar c = true) : l.map plusify = l := by
  induction l with
  | nil => rfl
  | cons c cs ih =>
    have hc := h c (by simp)
    have hp : plusify c = c := by
      unfold plusify
      rw [if_neg (unreserved_not_meta hc).2.2.2.2]
    rw [List.map_cons, hp, ih (fun x hx => h x (by simp [hx]))]

/-- Branch equation: a character that is neither `%` nor `+` passes
through unescaping. -/
theorem unescapeChars_cons_plain {c : Char} (cs : List Char)
    (h1 : c ≠ '%') (h2 : c ≠ '+') :
    unescapeChars (c :: cs) = (unescapeChars cs).map (fun r => c :: r) := by
  rw [unescapeChars.eq_def]
  simp [h1, h2]

/-- Branch equation: a plus unescapes to a space. -/
theorem unescapeChars_cons_plus (cs : List Char) :
    unescapeChars ('+' :: cs) = (unescapeChars cs).map (fun r => ' ' :: r) := by
  rw [unescapeChars.eq_def]
  simp

/-- Unescaping undoes plusification on safe characters. -/
theorem unescapeChars_plusify (l : List Char)
    (h : ∀ c ∈ l, safeChar c = true) :
    unescapeChars (l.map plusify) = some l := by
  induction l with
  | nil => rfl
  | cons c cs ih =>
    have hc := h c (by simp)
    have ihr := ih (fun x hx => h x (by simp [hx]))
    by_cases hsp : c = ' '
    · subst hsp
      rw [List.map_cons]
      show unescapeChars ('+' :: cs.map plusify) = _
      rw [unescapeChars_cons_plus, ihr]
      rfl
    · have hp : plusify c = c := by
        unfold plusify
        rw [if_neg hsp]
      have hu : isUnreservedChar c = true := by
        unfold safeChar at hc
        rw [Bool.or_eq_true, decide_eq_true_eq] at hc
        rcases hc with h1 | h1
        · exact h1
        · exact absurd h1 hsp
      rw [List.map_cons, hp,
        unescapeChars_cons_plain _ (unreserved_not_meta hu).2.2.1
          (unreserved_not_meta hu).2.2.2.1, ihr]
      rfl

/-- The `&`-split of a list never returns an empty chunk list. -/
theorem splitOnChar_ne_nil (sep : Char) (l : List Char) :
    splitOnChar sep l ≠ [] := by
  cases l with
  | nil => simp [splitOnChar]
  | cons c cs =>
    rw [splitOnChar]
    cases splitOnChar sep cs with
    | nil => by_cases hc : c = sep <;> simp [hc]
    | cons h t => by_cases hc : c = sep <;> simp [hc]

/-- Splitting a separator-free list yields that list as the only chunk. -/
theorem splitOnChar_no_sep (sep : Char) (l : List Char)
    (h : ∀ c ∈ l, c ≠ sep) : splitOnChar sep l = [l] := by
  induction l with
  | nil => rfl
  | cons c cs ih =>
    have hc : c ≠ sep := h c (by simp)
    rw [splitOnChar, ih (fun x hx => h x (by simp [hx]))]
    simp [hc]

/-- Splitting after a separator-free head chunk peels it off. -/
theorem splitOnChar_append (sep : Char) (a b : List Char)
    (h : ∀ c ∈ a, c ≠ sep) :
    splitOnChar sep (a ++ sep :: b) = a :: splitOnChar sep b := by
  induction a with
  | nil =>
    obtain ⟨hb, tb, hsb⟩ : ∃ hb tb, splitOnChar sep b = hb :: tb := by
      cases hq : splitOnChar sep b with
      | nil => exact absurd hq (splitOnChar_ne_nil sep b)
      | cons x y => exact ⟨x, y, rfl⟩
    rw [List.nil_append, splitOnChar, hsb]
    simp [hsb]
  | cons c a ih =>
    have hc : c ≠ sep := h c (by simp)
    rw [List.cons_append, splitOnChar, ih (fun x hx => h x (by simp [hx]))]
    simp [hc]

/-- Cutting a key/value segment at its first `=`. -/
theorem takeDrop_key (k v : List Char) (hk : ∀ c ∈ k, c ≠ '=') :
    (k ++ '=' :: v).takeWhile (fun c => c != '=') = k ∧
    (k ++ '=' :: v).dropWhile (fun c => c != '=') = '=' :: v := by
  induction k with
  | nil => constructor <;> simp
  | cons c kk ih =>
    have hc : c ≠ '=' := hk c (by simp)
    obtain ⟨h1, h2⟩ := ih (fun x hx => hk x (by simp [hx]))
    constructor
    · rw [List.cons_append, List.takeWhile_cons]
      simp [hc, h1]
    · rw [List.cons_append, List.dropWhile_cons]
      simp [hc, h2]

/-- A list with a head is not `isEmpty`. -/
theorem isEmpty_false_of_ne_nil {seg : List Char} (h : seg ≠ []) :
    seg.isEmpty = false := by
  cases seg with
  | nil => exact absurd rfl h
  | cons a l => rfl

/-- One encoded `key=value` component parses back to its pair, is
non-empty, and contains no separator, provided the key is unreserved and
the value safe. -/
theorem encodePair_segment (k v : String)
    (hk : ∀ c ∈ k.data, isUnreservedChar c = true)
    (hv : ∀ c ∈ v.data, safeChar c = true) :
    parsePair (encodePairChars (k, v)) = some (k, v) ∧
    encodePairChars (k, v) ≠ [] ∧
    (∀ c ∈ encodePairChars (k, v), c ≠ '&') := by
  have hksafe : ∀ c ∈ k.data, safeChar c = true := by
    intro c hc
    unfold safeChar
    rw [Bool.or_eq_true]
    exact Or.inl (hk c hc)
  have hkesc : escapeChars k.data = k.data := by
    rw [escapeChars_safe k.data hksafe, map_plusify_unreserved k.data hk]
  have henc : encodePairChars (k, v) = k.data ++ '=' :: v.data.map plusify := by
    unfold encodePairChars
    rw [hkesc, escapeChars_safe v.data hv]
  have hkne : ∀ c ∈ k.data, c ≠ '=' :=
    fun c hc => (unreserved_not_meta (hk c hc)).2.1
  refine ⟨?_, ?_, ?_⟩
  · rw [henc]
    unfold parsePair
    obtain ⟨ht, hd⟩ := takeDrop_key k.data (v.data.map plusify) hkne
    rw [ht, hd]
    have hukey : unescapeChars k.data = some k.data := by
      conv_lhs => rw [← map_plusify_unreserved k.data hk]
      exact unescapeChars_plusify k.data hksafe
    simp [hukey, unescapeChars_plusify v.data hv]
  · rw [henc]
    simp
  · rw [henc]
    intro c hc
    rcases List.mem_append.mp hc with hc | hc
    · exact (unreserved_not_meta (hk c hc)).1
    · rcases List.mem_cons.mp hc with rfl | hc
      · decide
      · obtain ⟨x, hx, rfl⟩ := List.mem_map.mp hc
        exact plusify_safe_ne_amp (hv x hx)

/-- An encoded list of good components splits and parses back verbatim. -/
theorem parsePairs_encodeChars (qs : List (String × String))
    (h : ∀ p ∈ qs, parsePair (encodePairChars p) = some p ∧
      encodePairChars p ≠ [] ∧ (∀ c ∈ encodePairChars p, c ≠ '&')) :
    parsePairs ((splitOnChar '&' (encodeChars qs)).filter
      (fun seg => !seg.isEmpty)) = some qs := by
  induction qs with
  | nil => rfl
  | cons p rest ih =>
    obtain ⟨hp, hne, hamp⟩ := h p (by simp)
    cases rest with
    | nil =>
      rw [encodeChars, splitOnChar_no_sep '&' _ hamp]
      simp [List.filter_cons, isEmpty_false_of_ne_nil hne, parsePairs, hp]
    | cons q rest2 =>
      have ihr := ih (fun x hx => h x (by simp [hx]))
      rw [encodeChars, splitOnChar_append '&' _ _ hamp, List.filter_cons]
      simp only [isEmpty_false_of_ne_nil hne, Bool.not_false, if_pos]
      rw [parsePairs, hp, ihr]
      rfl

/-- Decimal digit characters are unreserved. -/
theorem digitChar_unreserved :
    ∀ m, m < 10 → isUnreservedChar (Nat.digitChar m) = true := by decide

/-- Every character that `Nat.toDigitsCore` at base 10 prepends to an
unreserved accumulator is unreserved. -/
theorem toDigitsCore_unreserved :
    ∀ (fuel n : Nat) (ds : List Char),
      (∀ c ∈ ds, isUnreservedChar c = true) →
      ∀ c ∈ Nat.toDigitsCore 10 fuel n ds, isUnreservedChar c = true := by
  intro fuel
  induction fuel with
  | zero =>
    intro n ds hds
    simpa [Nat.toDigitsCore] using hds
  | succ f ih =>
    intro n ds hds
    rw [Nat.toDigitsCore]
    have hd : isUnreservedChar (Nat.digitChar (n % 10)) = true :=
      digitChar_unreserved _ (Nat.mod_lt _ (by decide))
    have hcons : ∀ c ∈ Nat.digitChar (n % 10) :: ds,
        isUnreservedChar c = true := by
      intro c hc
      rcases List.mem_cons.mp hc with rfl | hc
      · exact hd
      · exact hds c hc
    split
    · exact hcons
    · exact ih _ _ hcons

/-- Every character of the decimal representation of a natural number is
unreserved. -/
theorem natRepr_unreserved (n : Nat) :
    ∀ c ∈ (Nat.repr n).data, isUnreservedChar c = true :=
  toDigitsCore_unreserved (n + 1) n [] (by simp)

/-- Every character of `strconv.Itoa` of a positive value is unreserved. -/
theorem intToString_pos_unreserved (i : Int) (h : 0 < i) :
    ∀ c ∈ (toString i).data, isUnreservedChar c = true := by
  obtain ⟨m, rfl⟩ : ∃ m : Nat, i = Int.ofNat m :=
    ⟨i.toNat, by exact_mod_cast (Int.toNat_of_nonneg h.le).symm⟩
  intro c hc
  exact natRepr_unreserved m c hc

/-- C9: for fully populated `ListOptions` whose string values need no
escaping beyond the standard space-to-plus substitution, encoding the
options and parsing the result back yields exactly the five key/value
pairs `limit`, `query`, `sort`, `start`, `tag` (in the encoder's sorted key
order) with the original values verbatim. -/
theorem listOptions_encode_parse_roundtrip (o : ListOptions)
    (hq : o.query ≠ "") (ht : o.tag ≠ "") (hs : o.sort ≠ "")
    (hst : 0 < o.start) (hl : 0 < o.limit)
    (hqc : ∀ c ∈ o.query.data, safeChar c = true)
    (htc : ∀ c ∈ o.tag.data, safeChar c = true)
    (hsc : ∀ c ∈ o.sort.data, safeChar c = true) :
    parseQuery (urlValuesEncode o.toURLValues) =
      some [("limit", toString o.limit), ("query", o.query),
        ("sort", o.sort), ("start", toString o.start), ("tag", o.tag)] := by
  have hvals : o.toURLValues =
      [("start", toString o.start), ("limit", toString o.limit),
        ("query", o.query), ("tag", o.tag), ("sort", o.sort)] := by
    unfold ListOptions.toURLValues
    simp [hst, hl, hq, ht, hs]
  have hstep : parseQuery (urlValuesEncode o.toURLValues) =
      parsePairs ((splitOnChar '&'
        (encodeChars (sortByKey o.toURLValues))).filter
        (fun seg => !seg.isEmpty)) := rfl
  rw [hstep, hvals]
  have hsorted : sortByKey
      [("start", toString o.start), ("limit", toString o.limit),
        ("query", o.query), ("tag", o.tag), ("sort", o.sort)] =
      [("limit", toString o.limit), ("query", o.query), ("sort", o.sort),
        ("start", toString o.start), ("tag", o.tag)] := rfl
  rw [hsorted]
  apply parsePairs_encodeChars
  intro p hp
  have hsafeNum : ∀ (i : Int), 0 < i →
      ∀ c ∈ (toString i).data, safeChar c = true := by
    intro i hi c hc
    unfold safeChar
    rw [Bool.or_eq_true]
    exact Or.inl (intToString_pos_unreserved i hi c hc)
  simp only [List.mem_cons, List.not_mem_nil, or_false] at hp
  rcases hp with rfl | rfl | rfl | rfl | rfl
  · exact encodePair_segment "limit" (toString o.limit) (by decide)
      (hsafeNum o.limit hl)
  · exact encodePair_segment "query" o.query (by decide) hqc
  · exact encodePair_segment "sort" o.sort (by decide) hsc
  · exact encodePair_segment "start" (toString o.start) (by decide)
      (hsafeNum o.start hst)
  · exact encodePair_segment "tag" o.tag (by decide) htc

/-- Witness for C9: the ListOptions of the round-trip test — query
"test query", tag "important", sort "created", start 10, limit 25 —
encode and parse back to the original five pairs. -/
theorem listOptions_encode_parse_roundtrip_witness :
    parseQuery (urlValuesEncode
      (ListOptions.mk "test query" "important" "created" 10 25).toURLValues) =
      some [("limit", toString (25 : Int)), ("query", "test query"),
        ("sort", "created"), ("start", toString (10 : Int)),
        ("tag", "important")] :=
  listOptions_encode_parse_roundtrip
    (ListOptions.mk "test query" "important" "created" 10 25)
    (by decide) (by decide) (by decide) (by decide) (by decide)
    (by decide) (by decide) (by decide)

/-- Witness for C8: a decoder that rejects everything still succeeds on an
empty body and produces the response error on a non-empty one. -/
theorem parseResponse_empty_untouched_bad_body_response_error_witness :
    parseResponse (fun _ => (Except.error "bad" : Except String Nat)) true
      (.ok "") = .ok none ∧
    parseResponse (fun _ => (Except.error "bad" : Except String Nat)) true
      (.ok "x")
      = .error (.response ("failed to parse JSON response: " ++ "bad")) :=
  ⟨(parseResponse_empty_untouched_bad_body_response_error
      (fun _ => (Except.error "bad" : Except String Nat)) "x" "bad").1,
   (parseResponse_empty_untouched_bad_body_response_error
      (fun _ => (Except.error "bad" : Except String Nat)) "x" "bad").2
      (by decide) rfl⟩

end Mailpit
